import Mathlib

/-!
Shallow embedding of the engagement monitor of
`src/windows/autoclicker_gui.py`: the HP verifier (lines 1477-1498),
the monitor-loop body `_monitor_loop` (lines 1465-1620), and the stop
paths `_stop_monitoring` (lines 1388-1394), `_on_stop` (lines 795-800)
and `_on_close` (lines 1808-1815).  Times and HP percentages are
modelled as rationals, raw OCR readings as `Option ℚ` (`none` = no
health indicator detected).  Serial commands and sleeps are recorded
as explicit event lists.
-/

namespace AutoBot

/-- State of the HP verifier (lines 1437-1440): consecutive `None`
reads, consecutive `0.0` reads, and the last reading that was `> 0`. -/
structure VState where
  goneStreak : ℕ
  zeroStreak : ℕ
  lastGood : Option ℚ
deriving Repr, DecidableEq

def VState.init : VState := ⟨0, 0, none⟩

/-- Lines 1479-1488: streak / last-good update for one raw OCR reading. -/
def verifyStep (s : VState) (raw : Option ℚ) : VState :=
  match raw with
  | none => { s with goneStreak := s.goneStreak + 1, zeroStreak := 0 }
  | some v =>
    if v = 0 then { s with zeroStreak := s.zeroStreak + 1, goneStreak := 0 }
    else { goneStreak := 0, zeroStreak := 0, lastGood := some v }

/-- Line 1490: `gone_confirmed = hp_gone_streak >= hp_confirm_count`. -/
def goneConfirmed (c : ℕ) (s : VState) : Bool := decide (c ≤ s.goneStreak)

/-- Line 1491: `zero_confirmed = hp_zero_streak >= hp_confirm_count`. -/
def zeroConfirmed (c : ℕ) (s : VState) : Bool := decide (c ≤ s.zeroStreak)

/-- The verifier's per-cycle output: the emitted value, and whether it
was held (substituted from `last_good_hp`) rather than raw. -/
structure VerifiedHealth where
  value : Option ℚ
  held : Bool
deriving Repr, DecidableEq

/-- Lines 1493-1498: emitted `hp_pct`, computed from the already
updated streak state `s` and the raw reading of the cycle. -/
def verifiedOut (c : ℕ) (s : VState) (raw : Option ℚ) : VerifiedHealth :=
  if raw = none ∧ goneConfirmed c s = false ∧ s.lastGood ≠ none then
    ⟨s.lastGood, true⟩
  else if raw = some 0 ∧ zeroConfirmed c s = false ∧ s.lastGood ≠ none then
    ⟨s.lastGood, true⟩
  else ⟨raw, false⟩

/-- Verifier state after a whole sequence of raw readings. -/
def verifyFold (s : VState) (l : List (Option ℚ)) : VState := l.foldl verifyStep s

/-- Emitted verifier outputs over a sequence of raw readings. -/
def verifyRun (c : ℕ) (s : VState) : List (Option ℚ) → List VerifiedHealth
  | [] => []
  | r :: rs => verifiedOut c (verifyStep s r) r :: verifyRun c (verifyStep s r) rs

/-- One attack row `(key, a_min, a_max)` of `attack_keys` (line 1237). -/
structure AttackSlot where
  key : String
  minMs : ℚ
  maxMs : ℚ
deriving Repr, DecidableEq

/-- One `status_effect_keys` entry (lines 1287-1294); the region,
template and threshold are opaque: the match result of each cycle is an
input. -/
structure SESlot where
  key : String
  retryMinMs : ℚ
  retryMaxMs : ℚ
deriving Repr, DecidableEq

/-- One `buff_keys` entry (lines 1337-1342); region/template/threshold
again opaque. -/
structure BuffSlot where
  key : String
deriving Repr, DecidableEq

/-- The parameters passed to `_monitor_loop` (lines 1396-1408).
`deathKey = none` models a disabled / empty death key (falsy in
`if prev_hp_visible and death_key`). -/
structure Config where
  stuckS : ℚ
  targetKey : String
  noTargetTimeoutS : ℚ
  engageDelayMs : ℚ
  attackKeys : List AttackSlot
  statusEffectKeys : List SESlot
  buffKeys : List BuffSlot
  buffIntervalS : ℚ
  deathKey : Option String
  deathDelayMs : ℚ
  unstuckKey1 : String
  unstuckDur1Ms : ℚ
  unstuckKey2 : String
  unstuckDur2Ms : ℚ
  hpConfirmCount : ℕ
deriving Repr, DecidableEq

/-- The mutable loop variables of `_monitor_loop` (lines 1431-1448).
`nextBuffCheck = none` models `float("inf")` (no buff keys). -/
structure MonState where
  hpSince : Option ℚ
  noTargetSince : Option ℚ
  prevHpVisible : Bool
  prevHpPct : Option ℚ
  stuckCount : ℕ
  vs : VState
  nextPress : List ℚ
  seApplied : List Bool
  nextSeCheck : List ℚ
  nextBuffCheck : Option ℚ
deriving Repr, DecidableEq

/-- Initial loop state at start time `t0` (lines 1431-1448). -/
def MonState.start (cfg : Config) (t0 : ℚ) : MonState where
  hpSince := none
  noTargetSince := none
  prevHpVisible := false
  prevHpPct := none
  stuckCount := 0
  vs := VState.init
  nextPress := List.replicate cfg.attackKeys.length t0
  seApplied := List.replicate cfg.statusEffectKeys.length false
  nextSeCheck := List.replicate cfg.statusEffectKeys.length t0
  nextBuffCheck := if cfg.buffKeys = [] then none else some (t0 + cfg.buffIntervalS)

/-- The environment of one loop cycle: the perception outcome (`none` =
exception in capture/OCR, line 1473), the value of `time.monotonic()`
at line 1512, the drawn random delays, and the template-match outcomes
(`none` = exception) for each status-effect and buff slot. -/
structure CycleInput where
  perception : Option (Option ℚ)
  now : ℚ
  tgtDelayS : ℚ
  attackJitterS : List ℚ
  seInitJitterS : List ℚ
  seJitterS : List ℚ
  seMatch : List (Option Bool)
  buffMatch : List (Option Bool)
deriving Repr, DecidableEq

/-- Observable effects of one cycle: serial commands and sleeps, in
program order.  `stopRequest` is `self.root.after(0, self._stop_monitoring)`
at line 1608. -/
inductive Event where
  | press (key : String)
  | hold (key : String) (durMs : ℚ)
  | sleep (secs : ℚ)
  | stopRequest
deriving Repr, DecidableEq

/-- `POLL_INTERVAL = 0.05` (line 1450). -/
def pollIntervalS : ℚ := 1 / 20

structure StepResult where
  state : MonState
  events : List Event
  brk : Bool
deriving Repr, DecidableEq

/-- Session initialisation for status effects (lines 1521-1527): press
every status-effect key and schedule its next check at `now + jitter`. -/
def seInit (slots : List SESlot) (now : ℚ) (jitters : List ℚ) :
    List ℚ × List Event :=
  match slots, jitters with
  | slot :: ss, j :: js =>
    let rest := seInit ss now js
    ((now + j) :: rest.1, Event.press slot.key :: rest.2)
  | _, _ => ([], [])

/-- Attack-key timers (lines 1560-1563): fire each key whose
`next_press[i]` has elapsed, rescheduling it `jitter` ahead. -/
def attackStep (slots : List AttackSlot) (nextPress : List ℚ) (now : ℚ)
    (jitters : List ℚ) : List ℚ × List Event :=
  match slots, nextPress, jitters with
  | slot :: ss, t :: ts, j :: js =>
    let rest := attackStep ss ts now js
    if t ≤ now then ((now + j) :: rest.1, Event.press slot.key :: rest.2)
    else (t :: rest.1, rest.2)
  | _, _, _ => (nextPress, [])

/-- Body of the per-slot status-effect check (lines 1565-1582): skip if
already applied or not yet due; on a successful template match mark the
slot applied; on a failed match re-press and reschedule; on an
exception retry in 1 s. -/
def seSlotStep (slot : SESlot) (applied : Bool) (nextCheck : ℚ) (now : ℚ)
    (matchRes : Option Bool) (jitterS : ℚ) : Bool × ℚ × List Event :=
  if applied = true ∨ now < nextCheck then (applied, nextCheck, [])
  else
    match matchRes with
    | none => (applied, now + 1, [])
    | some true => (true, nextCheck, [])
    | some false => (applied, now + jitterS, [Event.press slot.key])

/-- The status-effect check loop over all slots (lines 1565-1582). -/
def seStep (slots : List SESlot) (applied : List Bool) (nextCheck : List ℚ)
    (now : ℚ) (mres : List (Option Bool)) (jitters : List ℚ) :
    List Bool × List ℚ × List Event :=
  match slots, applied, nextCheck, mres, jitters with
  | slot :: ss, a :: la, t :: ts, m :: ms, j :: js =>
    let one := seSlotStep slot a t now m j
    let rest := seStep ss la ts now ms js
    (one.1 :: rest.1, one.2.1 :: rest.2.1, one.2.2 ++ rest.2.2)
  | _, _, _, _, _ => (applied, nextCheck, [])

/-- The buff check loop (lines 1586-1594): press each buff key whose
template match returned `False`; exceptions are swallowed. -/
def buffStep (slots : List BuffSlot) (mres : List (Option Bool)) :
    List Event :=
  match slots, mres with
  | b :: bs, m :: ms =>
    (if m = some false then [Event.press b.key] else []) ++ buffStep bs ms
  | _, _ => []

/-- Lines 1529-1531: refresh `hp_since` to `now` exactly when the
emitted value strictly decreased below the previous one. -/
def hpSince2 (prevHpPct1 : Option ℚ) (v : ℚ) (now hpSince1 : ℚ) : ℚ :=
  match prevHpPct1 with
  | some p => if v < p then now else hpSince1
  | none => hpSince1

/-- Line 1584-1595 guard and reschedule: buffs are checked only when
buff keys exist and the single shared timer has elapsed; the timer then
moves to `now + buff_interval_s`. -/
def buffCheck (cfg : Config) (nextBuffCheck : Option ℚ) (now : ℚ)
    (bm : List (Option Bool)) : Option ℚ × List Event :=
  match nextBuffCheck with
  | some nbc =>
    if cfg.buffKeys ≠ [] ∧ nbc ≤ now then
      (some (now + cfg.buffIntervalS), buffStep cfg.buffKeys bm)
    else (some nbc, [])
  | none => (none, [])

/-- Lines 1529-1597: the rest of the visible branch after session
initialisation, starting from the decrease check.  `hpSince1`,
`prevHpPct1`, `nextPress1`, `seApplied1`, `nextSeCheck1` are the values
of the corresponding loop variables after the (possible) session
initialisation, `initEvents` the presses it generated, `v` the emitted
`hp_pct`. -/
def afterInit (cfg : Config) (s : MonState) (vs : VState) (v : ℚ)
    (inp : CycleInput) (hpSince1 : ℚ) (prevHpPct1 : Option ℚ)
    (nextPress1 : List ℚ) (seApplied1 : List Bool) (nextSeCheck1 : List ℚ)
    (initEvents : List Event) : StepResult :=
  if cfg.stuckS ≤ inp.now - hpSince2 prevHpPct1 v inp.now hpSince1 then
    ⟨{ hpSince := none, noTargetSince := none, prevHpVisible := true,
       prevHpPct := none, stuckCount := s.stuckCount + 1, vs := vs,
       nextPress := nextPress1, seApplied := seApplied1,
       nextSeCheck := nextSeCheck1, nextBuffCheck := s.nextBuffCheck },
     initEvents ++
       (if 2 ≤ s.stuckCount + 1 then
         [Event.hold cfg.unstuckKey1 cfg.unstuckDur1Ms,
          Event.sleep (cfg.unstuckDur1Ms / 1000),
          Event.hold cfg.unstuckKey2 cfg.unstuckDur2Ms,
          Event.sleep (cfg.unstuckDur2Ms / 1000)]
        else []) ++
       [Event.press cfg.targetKey, Event.sleep inp.tgtDelayS],
     false⟩
  else
    ⟨{ hpSince := some (hpSince2 prevHpPct1 v inp.now hpSince1),
       noTargetSince := none, prevHpVisible := true,
       prevHpPct := some v, stuckCount := s.stuckCount, vs := vs,
       nextPress :=
         (attackStep cfg.attackKeys nextPress1 inp.now inp.attackJitterS).1,
       seApplied :=
         (seStep cfg.statusEffectKeys seApplied1 nextSeCheck1 inp.now
           inp.seMatch inp.seJitterS).1,
       nextSeCheck :=
         (seStep cfg.statusEffectKeys seApplied1 nextSeCheck1 inp.now
           inp.seMatch inp.seJitterS).2.1,
       nextBuffCheck :=
         (buffCheck cfg s.nextBuffCheck inp.now inp.buffMatch).1 },
     initEvents ++
       (attackStep cfg.attackKeys nextPress1 inp.now inp.attackJitterS).2 ++
       (seStep cfg.statusEffectKeys seApplied1 nextSeCheck1 inp.now
         inp.seMatch inp.seJitterS).2.2 ++
       (buffCheck cfg s.nextBuffCheck inp.now inp.buffMatch).2 ++
       [Event.sleep pollIntervalS],
     false⟩

/-- Lines 1514-1597: the `hp_visible` branch.  A `none` session start
time triggers session initialisation (lines 1516-1527). -/
def visibleCycle (cfg : Config) (s : MonState) (vs : VState) (v : ℚ)
    (inp : CycleInput) : StepResult :=
  match s.hpSince with
  | none =>
    afterInit cfg s vs v inp inp.now (some v)
      (List.replicate cfg.attackKeys.length (inp.now + cfg.engageDelayMs / 1000))
      (List.replicate cfg.statusEffectKeys.length false)
      (seInit cfg.statusEffectKeys inp.now inp.seInitJitterS).1
      (seInit cfg.statusEffectKeys inp.now inp.seInitJitterS).2
  | some t =>
    afterInit cfg s vs v inp t s.prevHpPct s.nextPress s.seApplied
      s.nextSeCheck []

/-- Lines 1611-1618 (shared tail of the absent branch): clear the
session fields and the last known-good HP, press the targeting key and
sleep a randomized targeting delay. -/
def absentContinue (cfg : Config) (s : MonState) (vs : VState)
    (inp : CycleInput) (nts : Option ℚ) (deathEvents : List Event) :
    StepResult :=
  ⟨{ hpSince := none, noTargetSince := nts, prevHpVisible := false,
     prevHpPct := none, stuckCount := 0,
     vs := { vs with lastGood := none },
     nextPress := s.nextPress, seApplied := s.seApplied,
     nextSeCheck := s.nextSeCheck, nextBuffCheck := s.nextBuffCheck },
   deathEvents ++ [Event.press cfg.targetKey, Event.sleep inp.tgtDelayS],
   false⟩

/-- Lines 1599-1602: press the death key once on the present→absent
transition, when configured, and sleep the post-death delay. -/
def deathEvents (cfg : Config) (prevVisible : Bool) : List Event :=
  match cfg.deathKey with
  | some dk =>
    if prevVisible then
      [Event.press dk, Event.sleep (cfg.deathDelayMs / 1000)]
    else []
  | none => []

/-- Lines 1598-1618: the absent branch — optional one-shot death key on
the present→absent transition, no-target bookkeeping with the timeout
stop, then re-targeting. -/
def absentCycle (cfg : Config) (s : MonState) (vs : VState)
    (inp : CycleInput) : StepResult :=
  match s.noTargetSince with
  | none =>
    absentContinue cfg s vs inp (some inp.now) (deathEvents cfg s.prevHpVisible)
  | some t0 =>
    if 0 < cfg.noTargetTimeoutS ∧ cfg.noTargetTimeoutS ≤ inp.now - t0 then
      ⟨{ s with vs := vs },
       deathEvents cfg s.prevHpVisible ++ [Event.stopRequest], true⟩
    else absentContinue cfg s vs inp (some t0) (deathEvents cfg s.prevHpVisible)

/-- One full iteration of the `while self.monitoring` body
(lines 1465-1620).  A perception exception sleeps 0.5 s and leaves all
state untouched (lines 1473-1475). -/
def monitorStep (cfg : Config) (s : MonState) (inp : CycleInput) : StepResult :=
  match inp.perception with
  | none => ⟨s, [Event.sleep (1 / 2)], false⟩
  | some rawHp =>
    let vs := verifyStep s.vs rawHp
    match (verifiedOut cfg.hpConfirmCount vs rawHp).value with
    | some v => visibleCycle cfg s vs v inp
    | none => absentCycle cfg s vs inp

/-- The monitor loop: the `monitoring` flag is read at the top of every
iteration; a `False` flag or a `break` ends the loop. -/
def monitorRun (cfg : Config) : MonState → List (Bool × CycleInput) → List Event
  | _, [] => []
  | s, (flag, inp) :: rest =>
    if flag then
      let r := monitorStep cfg s inp
      r.events ++ (if r.brk then [] else monitorRun cfg r.state rest)
    else []

/-- GUI-level state relevant to the stop paths: the monitor flag
(`self.monitoring`), the simple-autoclicker flag (`self.running`) and
whether the serial port is open. -/
structure AppState where
  monitoring : Bool
  running : Bool
  serialOpen : Bool
deriving Repr, DecidableEq

/-- Serial commands sent to the device. -/
inductive Cmd where
  | stop
  | press (key : String)
deriving Repr, DecidableEq

/-- `_serial_send` (lines 668-677): writes only when the port is open. -/
def serialSend (st : AppState) (c : Cmd) : List Cmd :=
  if st.serialOpen then [c] else []

/-- `_stop_monitoring` (lines 1388-1394): clear the monitor flag and
send `STOP`.  This is also the procedure the no-target timeout schedules
via `self.root.after(0, self._stop_monitoring)` (line 1608). -/
def stopMonitoring (st : AppState) : AppState × List Cmd :=
  ({ st with monitoring := false }, serialSend st Cmd.stop)

/-- `_on_stop` (lines 795-800): send `STOP` and clear the
simple-autoclicker flag. -/
def onStop (st : AppState) : AppState × List Cmd :=
  ({ st with running := false }, serialSend st Cmd.stop)

/-- `_on_close` (lines 1808-1815): clear the monitor flag, run
`_on_stop` only when the simple autoclicker is running, then close the
serial port. -/
def onClose (st : AppState) : AppState × List Cmd :=
  if st.running then
    let r := onStop { st with monitoring := false }
    ({ r.1 with serialOpen := false }, r.2)
  else
    ({ st with monitoring := false, serialOpen := false }, [])

/-- A concrete configuration used to instantiate the theorems: one
attack key, one per-target status-effect key, one buff key, death key
enabled. -/
def wCfg : Config where
  stuckS := 20
  targetKey := "t"
  noTargetTimeoutS := 120
  engageDelayMs := 500
  attackKeys := [⟨"a", 100, 200⟩]
  statusEffectKeys := [⟨"s", 1000, 2000⟩]
  buffKeys := [⟨"b"⟩]
  buffIntervalS := 10
  deathKey := some "d"
  deathDelayMs := 300
  unstuckKey1 := "w"
  unstuckDur1Ms := 1500
  unstuckKey2 := "x"
  unstuckDur2Ms := 1500
  hpConfirmCount := 3

/-- A concrete mid-session loop state. -/
def wSession : MonState where
  hpSince := some 0
  noTargetSince := none
  prevHpVisible := true
  prevHpPct := some 50
  stuckCount := 0
  vs := ⟨0, 0, some 50⟩
  nextPress := [30]
  seApplied := [true]
  nextSeCheck := [30]
  nextBuffCheck := some 100

/-- A concrete cycle input reading 50% HP at time 25. -/
def wRead50 : CycleInput where
  perception := some (some 50)
  now := 25
  tgtDelayS := 1
  attackJitterS := [(3 : ℚ) / 20]
  seInitJitterS := [(3 : ℚ) / 2]
  seJitterS := [(3 : ℚ) / 2]
  seMatch := [some false]
  buffMatch := [some false]

/-- A concrete cycle input with no HP indicator at time 25. -/
def wReadGone : CycleInput where
  perception := some none
  now := 25
  tgtDelayS := 1
  attackJitterS := [(3 : ℚ) / 20]
  seInitJitterS := [(3 : ℚ) / 2]
  seJitterS := [(3 : ℚ) / 2]
  seMatch := [some false]
  buffMatch := [some false]

/-- A concrete state whose gone streak is about to confirm: health was
visible on the previous cycle. -/
def wDying : MonState where
  hpSince := some 0
  noTargetSince := none
  prevHpVisible := true
  prevHpPct := some 50
  stuckCount := 1
  vs := ⟨2, 0, none⟩
  nextPress := [30]
  seApplied := [true]
  nextSeCheck := [30]
  nextBuffCheck := some 100

/-- A concrete idle state: no target for a while, nothing held. -/
def wIdle : MonState where
  hpSince := none
  noTargetSince := some 0
  prevHpVisible := false
  prevHpPct := none
  stuckCount := 0
  vs := ⟨5, 0, none⟩
  nextPress := [30]
  seApplied := [true]
  nextSeCheck := [30]
  nextBuffCheck := some 100

/-- A no-HP reading far past the no-target timeout. -/
def wReadGoneLate : CycleInput where
  perception := some none
  now := 130
  tgtDelayS := 1
  attackJitterS := [(3 : ℚ) / 20]
  seInitJitterS := [(3 : ℚ) / 2]
  seJitterS := [(3 : ℚ) / 2]
  seMatch := [some false]
  buffMatch := [some false]

/-- A 50% HP reading early in the session (time 5). -/
def wRead5 : CycleInput where
  perception := some (some 50)
  now := 5
  tgtDelayS := 1
  attackJitterS := [(3 : ℚ) / 20]
  seInitJitterS := [(3 : ℚ) / 2]
  seJitterS := [(3 : ℚ) / 2]
  seMatch := [some false]
  buffMatch := [some false]

lemma verifyFold_append (s : VState) (l : List (Option ℚ)) (a : Option ℚ) :
    verifyFold s (l ++ [a]) = verifyStep (verifyFold s l) a := by
  simp [verifyFold, List.foldl_append]

lemma goneStreak_verifyStep_none (s : VState) :
    (verifyStep s none).goneStreak = s.goneStreak + 1 := rfl

lemma goneStreak_verifyStep_some (s : VState) (v : ℚ) :
    (verifyStep s (some v)).goneStreak = 0 := by
  by_cases h : v = 0 <;> simp [verifyStep, h]

lemma zeroStreak_verifyStep_none (s : VState) :
    (verifyStep s none).zeroStreak = 0 := rfl

lemma zeroStreak_verifyStep_some (s : VState) (v : ℚ) (h : v ≠ 0) :
    (verifyStep s (some v)).zeroStreak = 0 := by
  simp [verifyStep, h]

lemma zeroStreak_verifyStep_zero (s : VState) :
    (verifyStep s (some 0)).zeroStreak = s.zeroStreak + 1 := by
  simp [verifyStep]

/-- The gone streak counts a suffix of `none` readings. -/
lemma verifyFold_gone_suffix (l : List (Option ℚ)) :
    (verifyFold VState.init l).goneStreak ≤ l.length ∧
      ∀ x ∈ l.drop (l.length - (verifyFold VState.init l).goneStreak), x = none := by
  induction l using List.reverseRecOn with
  | nil => exact ⟨Nat.le_refl 0, by simp [verifyFold, VState.init]⟩
  | append_singleton l a ih =>
    obtain ⟨ih1, ih2⟩ := ih
    rw [verifyFold_append]
    cases a with
    | none =>
      rw [goneStreak_verifyStep_none]
      refine ⟨by simpa using Nat.succ_le_succ ih1, ?_⟩
      intro x hx
      rw [List.length_append, List.length_singleton] at hx
      have key : l.length + 1 - ((verifyFold VState.init l).goneStreak + 1)
          = l.length - (verifyFold VState.init l).goneStreak := by omega
      rw [key, List.drop_append_of_le_length (Nat.sub_le _ _)] at hx
      rcases List.mem_append.1 hx with h | h
      · exact ih2 x h
      · simpa using h
    | some v =>
      rw [goneStreak_verifyStep_some]
      refine ⟨Nat.zero_le _, ?_⟩
      intro x hx
      rw [Nat.sub_zero, List.drop_length] at hx
      exact absurd hx (List.not_mem_nil x)

/-- The zero streak counts a suffix of `0` readings. -/
lemma verifyFold_zero_suffix (l : List (Option ℚ)) :
    (verifyFold VState.init l).zeroStreak ≤ l.length ∧
      ∀ x ∈ l.drop (l.length - (verifyFold VState.init l).zeroStreak), x = some 0 := by
  induction l using List.reverseRecOn with
  | nil => exact ⟨Nat.le_refl 0, by simp [verifyFold, VState.init]⟩
  | append_singleton l a ih =>
    obtain ⟨ih1, ih2⟩ := ih
    rw [verifyFold_append]
    cases a with
    | none =>
      rw [zeroStreak_verifyStep_none]
      refine ⟨Nat.zero_le _, ?_⟩
      intro x hx
      rw [Nat.sub_zero, List.drop_length] at hx
      exact absurd hx (List.not_mem_nil x)
    | some v =>
      by_cases hv : v = 0
      · subst hv
        rw [zeroStreak_verifyStep_zero]
        refine ⟨by simpa using Nat.succ_le_succ ih1, ?_⟩
        intro x hx
        rw [List.length_append, List.length_singleton] at hx
        have key : l.length + 1 - ((verifyFold VState.init l).zeroStreak + 1)
            = l.length - (verifyFold VState.init l).zeroStreak := by omega
        rw [key, List.drop_append_of_le_length (Nat.sub_le _ _)] at hx
        rcases List.mem_append.1 hx with h | h
        · exact ih2 x h
        · simpa using h
      · rw [zeroStreak_verifyStep_some _ _ hv]
        refine ⟨Nat.zero_le _, ?_⟩
        intro x hx
        rw [Nat.sub_zero, List.drop_length] at hx
        exact absurd hx (List.not_mem_nil x)

/-- Claim C1: a gone (resp. zero) confirmation is reported only after at
least `hp_confirm_count ≥ 1` consecutive raw readings of `None`
(resp. `0`) with no intervening different reading, and any reading of
another kind resets the corresponding streak to 0. -/
theorem C1_confirmation_requires_streak (c : ℕ) (hc : 1 ≤ c) (l : List (Option ℚ)) :
    (goneConfirmed c (verifyFold VState.init l) = true →
      c ≤ l.length ∧ ∀ x ∈ l.drop (l.length - c), x = none) ∧
    (zeroConfirmed c (verifyFold VState.init l) = true →
      c ≤ l.length ∧ ∀ x ∈ l.drop (l.length - c), x = some 0) ∧
    (∀ s v, (verifyStep s (some v)).goneStreak = 0) ∧
    (∀ s, (verifyStep s none).zeroStreak = 0) ∧
    (∀ s v, v ≠ 0 → (verifyStep s (some v)).zeroStreak = 0) := by
  refine ⟨?_, ?_, goneStreak_verifyStep_some, zeroStreak_verifyStep_none,
    zeroStreak_verifyStep_some⟩
  · intro h
    have hg : c ≤ (verifyFold VState.init l).goneStreak := by
      simpa [goneConfirmed] using h
    obtain ⟨h1, h2⟩ := verifyFold_gone_suffix l
    refine ⟨le_trans hg h1, ?_⟩
    intro x hx
    have key : l.length - c = (l.length - (verifyFold VState.init l).goneStreak)
        + ((l.length - c) - (l.length - (verifyFold VState.init l).goneStreak)) := by
      omega
    rw [key, ← List.drop_drop] at hx
    exact h2 x (List.mem_of_mem_drop hx)
  · intro h
    have hz : c ≤ (verifyFold VState.init l).zeroStreak := by
      simpa [zeroConfirmed] using h
    obtain ⟨h1, h2⟩ := verifyFold_zero_suffix l
    refine ⟨le_trans hz h1, ?_⟩
    intro x hx
    have key : l.length - c = (l.length - (verifyFold VState.init l).zeroStreak)
        + ((l.length - c) - (l.length - (verifyFold VState.init l).zeroStreak)) := by
      omega
    rw [key, ← List.drop_drop] at hx
    exact h2 x (List.mem_of_mem_drop hx)

/-- Witness for C1 at `c = 2` on the reading sequence `[50, None, None]`. -/
theorem C1_confirmation_requires_streak_witness :
    2 ≤ ([some (50 : ℚ), none, none] : List (Option ℚ)).length ∧
      ∀ x ∈ ([some (50 : ℚ), none, none] : List (Option ℚ)).drop 1, x = none :=
  (C1_confirmation_requires_streak 2 (by decide) [some 50, none, none]).1 (by decide)

/-- Claim C4: the verifier's output equals the last known-good value
(tagged held) exactly when the raw reading is `None`/`0`, its streak is
not yet confirmed and a last known-good value exists; in every other
case the output is the raw reading.  Includes Scenario A
(`[50, None, None, 48]` with `confirmCount = 3`) and the edge case that
without a last known-good value unconfirmed readings pass through. -/
theorem C4_held_exactly_when_unconfirmed (c : ℕ) (s : VState) (raw : Option ℚ) :
    ((verifiedOut c (verifyStep s raw) raw).held = true ↔
      (((raw = none ∧ goneConfirmed c (verifyStep s raw) = false) ∨
        (raw = some 0 ∧ zeroConfirmed c (verifyStep s raw) = false)) ∧
        (verifyStep s raw).lastGood ≠ none)) ∧
    ((verifiedOut c (verifyStep s raw) raw).held = true →
      (verifiedOut c (verifyStep s raw) raw).value = (verifyStep s raw).lastGood) ∧
    ((verifiedOut c (verifyStep s raw) raw).held = false →
      (verifiedOut c (verifyStep s raw) raw).value = raw) ∧
    (s.lastGood = none → verifiedOut c (verifyStep s raw) raw = ⟨raw, false⟩) ∧
    verifyRun 3 VState.init [some 50, none, none, some 48] =
      [⟨some 50, false⟩, ⟨some 50, true⟩, ⟨some 50, true⟩, ⟨some 48, false⟩] := by
  refine ⟨?_, ?_, ?_, ?_, by decide⟩
  · by_cases h1 : raw = none ∧ goneConfirmed c (verifyStep s raw) = false ∧
        (verifyStep s raw).lastGood ≠ none
    · simp only [verifiedOut, if_pos h1]
      tauto
    · by_cases h2 : raw = some 0 ∧ zeroConfirmed c (verifyStep s raw) = false ∧
          (verifyStep s raw).lastGood ≠ none
      · simp only [verifiedOut, if_neg h1, if_pos h2]
        tauto
      · simp only [verifiedOut, if_neg h1, if_neg h2]
        constructor
        · intro h; exact absurd h (by simp)
        · intro h; tauto
  · unfold verifiedOut
    split
    · intro _; rfl
    · split
      · intro _; rfl
      · intro h; exact absurd h (by simp)
  · unfold verifiedOut
    split
    · intro h; exact absurd h (by simp)
    · split
      · intro h; exact absurd h (by simp)
      · intro _; rfl
  · intro h
    rcases raw with _ | v
    · simp [verifiedOut, verifyStep, h]
    · by_cases hv : v = 0 <;> simp [verifiedOut, verifyStep, h, hv]

section BranchEquations

variable (cfg : Config) (s : MonState) (inp : CycleInput)

lemma monitorStep_exception (h : inp.perception = none) :
    monitorStep cfg s inp = ⟨s, [Event.sleep (1 / 2)], false⟩ := by
  simp only [monitorStep, h]

lemma monitorStep_visible (raw : Option ℚ) (v : ℚ)
    (h1 : inp.perception = some raw)
    (h2 : (verifiedOut cfg.hpConfirmCount (verifyStep s.vs raw) raw).value
      = some v) :
    monitorStep cfg s inp = visibleCycle cfg s (verifyStep s.vs raw) v inp := by
  simp only [monitorStep, h1, h2]

lemma monitorStep_absent (raw : Option ℚ)
    (h1 : inp.perception = some raw)
    (h2 : (verifiedOut cfg.hpConfirmCount (verifyStep s.vs raw) raw).value
      = none) :
    monitorStep cfg s inp = absentCycle cfg s (verifyStep s.vs raw) inp := by
  simp only [monitorStep, h1, h2]

lemma visibleCycle_new (vs : VState) (v : ℚ) (hs : s.hpSince = none) :
    visibleCycle cfg s vs v inp =
      afterInit cfg s vs v inp inp.now (some v)
        (List.replicate cfg.attackKeys.length
          (inp.now + cfg.engageDelayMs / 1000))
        (List.replicate cfg.statusEffectKeys.length false)
        (seInit cfg.statusEffectKeys inp.now inp.seInitJitterS).1
        (seInit cfg.statusEffectKeys inp.now inp.seInitJitterS).2 := by
  simp only [visibleCycle, hs]

lemma visibleCycle_session (vs : VState) (v : ℚ) (t : ℚ)
    (hs : s.hpSince = some t) :
    visibleCycle cfg s vs v inp =
      afterInit cfg s vs v inp t s.prevHpPct s.nextPress s.seApplied
        s.nextSeCheck [] := by
  simp only [visibleCycle, hs]

lemma afterInit_stuck (vs : VState) (v : ℚ) (hpSince1 : ℚ)
    (prevHpPct1 : Option ℚ) (nextPress1 : List ℚ) (seApplied1 : List Bool)
    (nextSeCheck1 : List ℚ) (initEvents : List Event)
    (hst : cfg.stuckS ≤ inp.now - hpSince2 prevHpPct1 v inp.now hpSince1) :
    afterInit cfg s vs v inp hpSince1 prevHpPct1 nextPress1 seApplied1
        nextSeCheck1 initEvents =
      ⟨{ hpSince := none, noTargetSince := none, prevHpVisible := true,
         prevHpPct := none, stuckCount := s.stuckCount + 1, vs := vs,
         nextPress := nextPress1, seApplied := seApplied1,
         nextSeCheck := nextSeCheck1, nextBuffCheck := s.nextBuffCheck },
       initEvents ++
         (if 2 ≤ s.stuckCount + 1 then
           [Event.hold cfg.unstuckKey1 cfg.unstuckDur1Ms,
            Event.sleep (cfg.unstuckDur1Ms / 1000),
            Event.hold cfg.unstuckKey2 cfg.unstuckDur2Ms,
            Event.sleep (cfg.unstuckDur2Ms / 1000)]
          else []) ++
         [Event.press cfg.targetKey, Event.sleep inp.tgtDelayS],
       false⟩ := by
  unfold afterInit
  rw [if_pos hst]

lemma afterInit_attack (vs : VState) (v : ℚ) (hpSince1 : ℚ)
    (prevHpPct1 : Option ℚ) (nextPress1 : List ℚ) (seApplied1 : List Bool)
    (nextSeCheck1 : List ℚ) (initEvents : List Event)
    (hst : ¬ cfg.stuckS ≤ inp.now - hpSince2 prevHpPct1 v inp.now hpSince1) :
    afterInit cfg s vs v inp hpSince1 prevHpPct1 nextPress1 seApplied1
        nextSeCheck1 initEvents =
      ⟨{ hpSince := some (hpSince2 prevHpPct1 v inp.now hpSince1),
         noTargetSince := none, prevHpVisible := true,
         prevHpPct := some v, stuckCount := s.stuckCount, vs := vs,
         nextPress :=
           (attackStep cfg.attackKeys nextPress1 inp.now inp.attackJitterS).1,
         seApplied :=
           (seStep cfg.statusEffectKeys seApplied1 nextSeCheck1 inp.now
             inp.seMatch inp.seJitterS).1,
         nextSeCheck :=
           (seStep cfg.statusEffectKeys seApplied1 nextSeCheck1 inp.now
             inp.seMatch inp.seJitterS).2.1,
         nextBuffCheck :=
           (buffCheck cfg s.nextBuffCheck inp.now inp.buffMatch).1 },
       initEvents ++
         (attackStep cfg.attackKeys nextPress1 inp.now inp.attackJitterS).2 ++
         (seStep cfg.statusEffectKeys seApplied1 nextSeCheck1 inp.now
           inp.seMatch inp.seJitterS).2.2 ++
         (buffCheck cfg s.nextBuffCheck inp.now inp.buffMatch).2 ++
         [Event.sleep pollIntervalS],
       false⟩ := by
  unfold afterInit
  rw [if_neg hst]

lemma absentCycle_first (vs : VState) (hn : s.noTargetSince = none) :
    absentCycle cfg s vs inp =
      absentContinue cfg s vs inp (some inp.now)
        (deathEvents cfg s.prevHpVisible) := by
  simp only [absentCycle, hn]

lemma absentCycle_timeout (vs : VState) (t0 : ℚ)
    (hn : s.noTargetSince = some t0)
    (hc : 0 < cfg.noTargetTimeoutS ∧ cfg.noTargetTimeoutS ≤ inp.now - t0) :
    absentCycle cfg s vs inp =
      ⟨{ s with vs := vs },
       deathEvents cfg s.prevHpVisible ++ [Event.stopRequest], true⟩ := by
  simp only [absentCycle, hn]
  rw [if_pos hc]

lemma absentCycle_noTimeout (vs : VState) (t0 : ℚ)
    (hn : s.noTargetSince = some t0)
    (hc : ¬ (0 < cfg.noTargetTimeoutS ∧ cfg.noTargetTimeoutS ≤ inp.now - t0)) :
    absentCycle cfg s vs inp =
      absentContinue cfg s vs inp (some t0)
        (deathEvents cfg s.prevHpVisible) := by
  simp only [absentCycle, hn]
  rw [if_neg hc]

end BranchEquations

lemma hpSince2_no_decrease (p v now h1 : ℚ) (hnd : ¬ v < p) :
    hpSince2 (some p) v now h1 = h1 := by
  simp only [hpSince2]
  rw [if_neg hnd]

lemma hpSince2_decrease (p v now h1 : ℚ) (hlt : v < p) :
    hpSince2 (some p) v now h1 = now := by
  simp only [hpSince2]
  rw [if_pos hlt]

lemma seInit_events_press (slots : List SESlot) (now : ℚ) (js : List ℚ) :
    ∀ e ∈ (seInit slots now js).2, ∃ k, e = Event.press k := by
  induction slots generalizing js with
  | nil => intro e he; simp [seInit] at he
  | cons slot ss ih =>
    intro e he
    cases js with
    | nil => simp [seInit] at he
    | cons j js =>
      simp only [seInit, List.mem_cons] at he
      rcases he with rfl | he
      · exact ⟨slot.key, rfl⟩
      · exact ih js e he

lemma attackStep_events_press (slots : List AttackSlot) (nextPress : List ℚ)
    (now : ℚ) (js : List ℚ) :
    ∀ e ∈ (attackStep slots nextPress now js).2, ∃ k, e = Event.press k := by
  induction slots generalizing nextPress js with
  | nil => intro e he; simp [attackStep] at he
  | cons slot ss ih =>
    intro e he
    cases nextPress with
    | nil => simp [attackStep] at he
    | cons t ts =>
      cases js with
      | nil => simp [attackStep] at he
      | cons j js =>
        simp only [attackStep] at he
        by_cases hdue : t ≤ now
        · rw [if_pos hdue] at he
          simp only [List.mem_cons] at he
          rcases he with rfl | he
          · exact ⟨slot.key, rfl⟩
          · exact ih ts js e he
        · rw [if_neg hdue] at he
          exact ih ts js e he

lemma seSlotStep_events_press (slot : SESlot) (a : Bool) (t now : ℚ)
    (m : Option Bool) (j : ℚ) :
    ∀ e ∈ (seSlotStep slot a t now m j).2.2, e = Event.press slot.key := by
  intro e he
  unfold seSlotStep at he
  split at he
  · simp at he
  · cases m with
    | none => simp at he
    | some b => cases b <;> simpa using he

lemma seStep_events_press (slots : List SESlot) (la : List Bool)
    (ts : List ℚ) (now : ℚ) (ms : List (Option Bool)) (js : List ℚ) :
    ∀ e ∈ (seStep slots la ts now ms js).2.2, ∃ k, e = Event.press k := by
  induction slots generalizing la ts ms js with
  | nil => intro e he; simp [seStep] at he
  | cons slot ss ih =>
    intro e he
    match la, ts, ms, js with
    | [], _, _, _ => simp [seStep] at he
    | _ :: _, [], _, _ => simp [seStep] at he
    | _ :: _, _ :: _, [], _ => simp [seStep] at he
    | _ :: _, _ :: _, _ :: _, [] => simp [seStep] at he
    | a :: la, t :: ts, m :: ms, j :: js =>
      simp only [seStep, List.mem_append] at he
      rcases he with he | he
      · exact ⟨slot.key, seSlotStep_events_press slot a t now m j e he⟩
      · exact ih la ts ms js e he

lemma buffStep_events_press (slots : List BuffSlot) (ms : List (Option Bool)) :
    ∀ e ∈ buffStep slots ms, ∃ k, e = Event.press k := by
  induction slots generalizing ms with
  | nil => intro e he; simp [buffStep] at he
  | cons b bs ih =>
    intro e he
    cases ms with
    | nil => simp [buffStep] at he
    | cons m ms =>
      simp only [buffStep, List.mem_append] at he
      rcases he with he | he
      · by_cases hm : m = some false
        · rw [if_pos hm] at he
          simp only [List.mem_singleton] at he
          exact ⟨b.key, he⟩
        · rw [if_neg hm] at he
          simp at he
      · exact ih ms e he

lemma buffCheck_events_press (cfg : Config) (nbc : Option ℚ) (now : ℚ)
    (bm : List (Option Bool)) :
    ∀ e ∈ (buffCheck cfg nbc now bm).2, ∃ k, e = Event.press k := by
  intro e he
  cases nbc with
  | none => simp [buffCheck] at he
  | some t =>
    simp only [buffCheck] at he
    by_cases h : cfg.buffKeys ≠ [] ∧ t ≤ now
    · rw [if_pos h] at he
      exact buffStep_events_press cfg.buffKeys bm e he
    · rw [if_neg h] at he
      simp at he

lemma deathEvents_shape (cfg : Config) (b : Bool) :
    deathEvents cfg b = [] ∨
      ∃ dk, cfg.deathKey = some dk ∧ b = true ∧
        deathEvents cfg b = [Event.press dk, Event.sleep (cfg.deathDelayMs / 1000)] := by
  unfold deathEvents
  cases hdk : cfg.deathKey with
  | none => exact Or.inl rfl
  | some dk =>
    cases b with
    | false => exact Or.inl rfl
    | true => exact Or.inr ⟨dk, rfl, rfl, rfl⟩

lemma deathEvents_not_visible (cfg : Config) :
    deathEvents cfg false = [] := by
  unfold deathEvents
  cases cfg.deathKey <;> rfl

lemma seSlotStep_applied (slot : SESlot) (t now : ℚ) (m : Option Bool)
    (j : ℚ) : seSlotStep slot true t now m j = (true, t, []) := by
  unfold seSlotStep
  rw [if_pos (Or.inl rfl)]

lemma seStep_preserves_applied (slots : List SESlot) (la : List Bool)
    (ts : List ℚ) (now : ℚ) (ms : List (Option Bool)) (js : List ℚ) (i : ℕ)
    (h : la.get? i = some true) :
    (seStep slots la ts now ms js).1.get? i = some true := by
  induction slots generalizing la ts ms js i with
  | nil => simpa [seStep] using h
  | cons slot ss ih =>
    match la, ts, ms, js with
    | [], _, _, _ => simpa [seStep] using h
    | a :: la, [], _, _ => simpa [seStep] using h
    | a :: la, t :: ts, [], _ => simpa [seStep] using h
    | a :: la, t :: ts, m :: ms, [] => simpa [seStep] using h
    | a :: la, t :: ts, m :: ms, j :: js =>
      cases i with
      | zero =>
        rw [List.get?_cons_zero] at h
        obtain rfl : a = true := by injection h
        simp only [seStep, List.get?_cons_zero, seSlotStep_applied]
      | succ i =>
        rw [List.get?_cons_succ] at h
        simp only [seStep, List.get?_cons_succ]
        exact ih la ts ms js i h

lemma seStep_skips_future (slots : List SESlot) (la : List Bool) (ts : List ℚ)
    (now : ℚ) (ms : List (Option Bool)) (js : List ℚ)
    (h : ∀ u ∈ ts, now < u) :
    seStep slots la ts now ms js = (la, ts, []) := by
  induction slots generalizing la ts ms js with
  | nil => rfl
  | cons slot ss ih =>
    match la, ts, ms, js with
    | [], _, _, _ => rfl
    | a :: la, [], _, _ => rfl
    | a :: la, t :: ts, [], _ => rfl
    | a :: la, t :: ts, m :: ms, [] => rfl
    | a :: la, t :: ts, m :: ms, j :: js =>
      have ht : now < t := h t (List.mem_cons_self _ _)
      have hone : seSlotStep slot a t now m j = (a, t, []) := by
        unfold seSlotStep
        rw [if_pos (Or.inr ht)]
      have hrest := ih la ts ms js (fun u hu => h u (List.mem_cons_of_mem _ hu))
      simp only [seStep, hone, hrest, List.nil_append]

lemma seInit_events_map (slots : List SESlot) (now : ℚ) (js : List ℚ)
    (hlen : js.length = slots.length) :
    (seInit slots now js).2 = slots.map fun q => Event.press q.key := by
  induction slots generalizing js with
  | nil => simp [seInit]
  | cons slot ss ih =>
    cases js with
    | nil => simp at hlen
    | cons j js =>
      simp only [seInit, List.map_cons, List.cons.injEq, true_and]
      exact ih js (by simpa using hlen)

lemma seInit_future (slots : List SESlot) (now : ℚ) (js : List ℚ)
    (hj : ∀ j ∈ js, 0 < j) :
    ∀ u ∈ (seInit slots now js).1, now < u := by
  induction slots generalizing js with
  | nil => intro u hu; simp [seInit] at hu
  | cons slot ss ih =>
    intro u hu
    cases js with
    | nil => simp [seInit] at hu
    | cons j js =>
      simp only [seInit, List.mem_cons] at hu
      rcases hu with rfl | hu
      · have := hj j (List.mem_cons_self _ _)
        linarith
      · exact ih js (fun x hx => hj x (List.mem_cons_of_mem _ hx)) u hu

lemma hold_mem_afterInit (cfg : Config) (s : MonState) (vs : VState) (v : ℚ)
    (inp : CycleInput) (hpSince1 : ℚ) (prevHpPct1 : Option ℚ)
    (nextPress1 : List ℚ) (seApplied1 : List Bool) (nextSeCheck1 : List ℚ)
    (initEvents : List Event) (k : String) (d : ℚ)
    (hie : ∀ e ∈ initEvents, ∃ k0, e = Event.press k0)
    (h : Event.hold k d ∈ (afterInit cfg s vs v inp hpSince1 prevHpPct1
      nextPress1 seApplied1 nextSeCheck1 initEvents).events) :
    1 ≤ s.stuckCount ∧ (k = cfg.unstuckKey1 ∨ k = cfg.unstuckKey2) := by
  by_cases hst : cfg.stuckS ≤ inp.now - hpSince2 prevHpPct1 v inp.now hpSince1
  · rw [afterInit_stuck cfg s inp vs v hpSince1 prevHpPct1 nextPress1
      seApplied1 nextSeCheck1 initEvents hst] at h
    simp only [List.mem_append] at h
    rcases h with (h | h) | h
    · obtain ⟨k0, hk⟩ := hie _ h
      exact absurd hk (by simp)
    · by_cases h2 : 2 ≤ s.stuckCount + 1
      · rw [if_pos h2] at h
        refine ⟨by omega, ?_⟩
        simp only [List.mem_cons, List.not_mem_nil, or_false] at h
        rcases h with h | h | h | h
        · exact Or.inl (by injection h)
        · exact absurd h (by simp)
        · exact Or.inr (by injection h)
        · exact absurd h (by simp)
      · rw [if_neg h2] at h
        simp at h
    · simp at h
  · rw [afterInit_attack cfg s inp vs v hpSince1 prevHpPct1 nextPress1
      seApplied1 nextSeCheck1 initEvents hst] at h
    exfalso
    simp only [List.mem_append] at h
    rcases h with (((h | h) | h) | h) | h
    · obtain ⟨k0, hk⟩ := hie _ h
      exact absurd hk (by simp)
    · obtain ⟨k0, hk⟩ := attackStep_events_press _ _ _ _ _ h
      exact absurd hk (by simp)
    · obtain ⟨k0, hk⟩ := seStep_events_press _ _ _ _ _ _ _ h
      exact absurd hk (by simp)
    · obtain ⟨k0, hk⟩ := buffCheck_events_press _ _ _ _ _ h
      exact absurd hk (by simp)
    · simp at h

lemma hold_mem_absentCycle (cfg : Config) (s : MonState) (vs : VState)
    (inp : CycleInput) (k : String) (d : ℚ)
    (h : Event.hold k d ∈ (absentCycle cfg s vs inp).events) : False := by
  have hde : ∀ e ∈ deathEvents cfg s.prevHpVisible, e ≠ Event.hold k d := by
    rcases deathEvents_shape cfg s.prevHpVisible with hd | ⟨dk, _, _, hd⟩ <;>
      rw [hd] <;> intro e he <;> simp at he
    rcases he with rfl | rfl <;> simp
  rcases hnts : s.noTargetSince with _ | t0
  · rw [absentCycle_first cfg s inp vs hnts] at h
    simp only [absentContinue, List.mem_append] at h
    rcases h with h | h
    · exact hde _ h rfl
    · simp at h
  · by_cases hc : 0 < cfg.noTargetTimeoutS ∧ cfg.noTargetTimeoutS ≤ inp.now - t0
    · rw [absentCycle_timeout cfg s inp vs t0 hnts hc] at h
      simp only [List.mem_append] at h
      rcases h with h | h
      · exact hde _ h rfl
      · simp at h
    · rw [absentCycle_noTimeout cfg s inp vs t0 hnts hc] at h
      simp only [absentContinue, List.mem_append] at h
      rcases h with h | h
      · exact hde _ h rfl
      · simp at h

lemma hold_mem_monitorStep (cfg : Config) (s : MonState) (inp : CycleInput)
    (k : String) (d : ℚ)
    (h : Event.hold k d ∈ (monitorStep cfg s inp).events) :
    1 ≤ s.stuckCount ∧ (k = cfg.unstuckKey1 ∨ k = cfg.unstuckKey2) := by
  rcases hperc : inp.perception with _ | raw
  · rw [monitorStep_exception cfg s inp hperc] at h
    simp at h
  · rcases hval : (verifiedOut cfg.hpConfirmCount (verifyStep s.vs raw) raw).value
      with _ | v
    · rw [monitorStep_absent cfg s inp raw hperc hval] at h
      exact absurd h (fun hh => hold_mem_absentCycle cfg s _ inp k d hh)
    · rw [monitorStep_visible cfg s inp raw v hperc hval] at h
      rcases hs : s.hpSince with _ | t
      · rw [visibleCycle_new cfg s inp _ v hs] at h
        exact hold_mem_afterInit cfg s _ v inp inp.now (some v) _ _ _ _ k d
          (seInit_events_press _ _ _) h
      · rw [visibleCycle_session cfg s inp _ v t hs] at h
        exact hold_mem_afterInit cfg s _ v inp t s.prevHpPct _ _ _ _ k d
          (by intro e he; simp at he) h

lemma afterInit_props (cfg : Config) (s : MonState) (vs : VState) (v : ℚ)
    (inp : CycleInput) (hpSince1 : ℚ) (prevHpPct1 : Option ℚ)
    (nextPress1 : List ℚ) (seApplied1 : List Bool) (nextSeCheck1 : List ℚ)
    (initEvents : List Event) :
    (afterInit cfg s vs v inp hpSince1 prevHpPct1 nextPress1 seApplied1
      nextSeCheck1 initEvents).state.noTargetSince = none ∧
    (afterInit cfg s vs v inp hpSince1 prevHpPct1 nextPress1 seApplied1
      nextSeCheck1 initEvents).state.prevHpVisible = true ∧
    (afterInit cfg s vs v inp hpSince1 prevHpPct1 nextPress1 seApplied1
      nextSeCheck1 initEvents).brk = false := by
  by_cases hst : cfg.stuckS ≤ inp.now - hpSince2 prevHpPct1 v inp.now hpSince1
  · rw [afterInit_stuck cfg s inp vs v hpSince1 prevHpPct1 nextPress1
      seApplied1 nextSeCheck1 initEvents hst]
    exact ⟨rfl, rfl, rfl⟩
  · rw [afterInit_attack cfg s inp vs v hpSince1 prevHpPct1 nextPress1
      seApplied1 nextSeCheck1 initEvents hst]
    exact ⟨rfl, rfl, rfl⟩

lemma visibleCycle_props (cfg : Config) (s : MonState) (vs : VState) (v : ℚ)
    (inp : CycleInput) :
    (visibleCycle cfg s vs v inp).state.noTargetSince = none ∧
    (visibleCycle cfg s vs v inp).state.prevHpVisible = true ∧
    (visibleCycle cfg s vs v inp).brk = false := by
  rcases hs : s.hpSince with _ | t
  · rw [visibleCycle_new cfg s inp vs v hs]
    exact afterInit_props cfg s vs v inp _ _ _ _ _ _
  · rw [visibleCycle_session cfg s inp vs v t hs]
    exact afterInit_props cfg s vs v inp _ _ _ _ _ _

lemma buffCheck_due (cfg : Config) (nbc now : ℚ) (bm : List (Option Bool))
    (hne : cfg.buffKeys ≠ []) (hd : nbc ≤ now) :
    buffCheck cfg (some nbc) now bm =
      (some (now + cfg.buffIntervalS), buffStep cfg.buffKeys bm) := by
  simp only [buffCheck]
  rw [if_pos ⟨hne, hd⟩]

lemma buffCheck_notDue (cfg : Config) (nbc now : ℚ) (bm : List (Option Bool))
    (hd : ¬ (cfg.buffKeys ≠ [] ∧ nbc ≤ now)) :
    buffCheck cfg (some nbc) now bm = (some nbc, []) := by
  simp only [buffCheck]
  rw [if_neg hd]

lemma buffStep_mem_iff (slots : List BuffSlot) (ms : List (Option Bool))
    (e : Event) :
    e ∈ buffStep slots ms ↔
      ∃ i b, slots.get? i = some b ∧ ms.get? i = some (some false) ∧
        e = Event.press b.key := by
  induction slots generalizing ms with
  | nil =>
    simp only [buffStep, List.not_mem_nil, false_iff, not_exists]
    intro i b hb
    simp at hb
  | cons b0 bs ih =>
    cases ms with
    | nil =>
      simp only [buffStep, List.not_mem_nil, false_iff, not_exists]
      intro i b hb
      exact absurd hb.2.1 (by simp)
    | cons m ms =>
      simp only [buffStep, List.mem_append]
      constructor
      · rintro (he | he)
        · by_cases hm : m = some false
          · rw [if_pos hm] at he
            simp only [List.mem_singleton] at he
            exact ⟨0, b0, rfl, by simp [hm], he⟩
          · rw [if_neg hm] at he
            simp at he
        · obtain ⟨i, b, h1, h2, h3⟩ := (ih ms).1 he
          exact ⟨i + 1, b, by simpa using h1, by simpa using h2, h3⟩
      · rintro ⟨i, b, h1, h2, h3⟩
        cases i with
        | zero =>
          rw [List.get?_cons_zero] at h1 h2
          obtain rfl : b0 = b := by injection h1
          obtain rfl : m = some false := by injection h2
          left
          rw [if_pos rfl]
          simp [h3]
        | succ i =>
          right
          rw [List.get?_cons_succ] at h1 h2
          exact (ih ms).2 ⟨i, b, h1, h2, h3⟩

/-- Claim C2: in the engaged state, the unstuck movement sequence (hold
unstuck key 1, then hold unstuck key 2, then press the targeting key)
is performed exactly when two consecutive stuck detections have
occurred (the stuck strike counter reaches 2); a single stuck detection
performs only the targeting press and ends the session, with no
movement sequence. -/
theorem C2_stuck_escalation (cfg : Config) (s : MonState) (inp : CycleInput)
    (raw : Option ℚ) (v p t : ℚ)
    (h1 : inp.perception = some raw)
    (h2 : (verifiedOut cfg.hpConfirmCount (verifyStep s.vs raw) raw).value
      = some v)
    (ht : s.hpSince = some t) (hp : s.prevHpPct = some p) (hnd : ¬ v < p)
    (hstuck : cfg.stuckS ≤ inp.now - t) :
    ((monitorStep cfg s inp).events =
      (if 2 ≤ s.stuckCount + 1 then
        [Event.hold cfg.unstuckKey1 cfg.unstuckDur1Ms,
         Event.sleep (cfg.unstuckDur1Ms / 1000),
         Event.hold cfg.unstuckKey2 cfg.unstuckDur2Ms,
         Event.sleep (cfg.unstuckDur2Ms / 1000)]
       else []) ++ [Event.press cfg.targetKey, Event.sleep inp.tgtDelayS]) ∧
    (s.stuckCount = 0 →
      (monitorStep cfg s inp).events =
        [Event.press cfg.targetKey, Event.sleep inp.tgtDelayS]) ∧
    (monitorStep cfg s inp).state.hpSince = none ∧
    (monitorStep cfg s inp).state.prevHpPct = none ∧
    (monitorStep cfg s inp).state.stuckCount = s.stuckCount + 1 ∧
    (∀ s2 inp2 k d, Event.hold k d ∈ (monitorStep cfg s2 inp2).events →
      1 ≤ s2.stuckCount ∧ (k = cfg.unstuckKey1 ∨ k = cfg.unstuckKey2)) := by
  have hstuck2 : cfg.stuckS ≤ inp.now - hpSince2 s.prevHpPct v inp.now t := by
    rw [hp, hpSince2_no_decrease p v inp.now t hnd]
    exact hstuck
  rw [monitorStep_visible cfg s inp raw v h1 h2,
    visibleCycle_session cfg s inp (verifyStep s.vs raw) v t ht,
    afterInit_stuck cfg s inp (verifyStep s.vs raw) v t s.prevHpPct
      s.nextPress s.seApplied s.nextSeCheck [] hstuck2]
  refine ⟨by simp, ?_, rfl, rfl, rfl,
    fun s2 inp2 k d h => hold_mem_monitorStep cfg s2 inp2 k d h⟩
  intro h0
  rw [h0]
  simp

/-- Witness for C2: a first stuck detection (strike counter 0 → 1) at a
concrete state presses only the targeting key. -/
theorem C2_stuck_escalation_witness :
    (monitorStep wCfg wSession wRead50).events =
      [Event.press "t", Event.sleep 1] :=
  (C2_stuck_escalation wCfg wSession wRead50 (some 50) 50 50 0 rfl
    (by decide) rfl rfl (by decide) (by norm_num [wCfg, wRead50])).2.1 rfl

/-- Claim C3: a per-target status-effect slot marked applied is never
pressed again and stays applied until a session reset; on every
transition into a new session every slot is reset to unapplied exactly
once and its key is pressed immediately (and, with positive retry
jitter, its retry check cannot also fire in the same cycle). -/
theorem C3_per_target_slots (cfg : Config) (s : MonState) (inp : CycleInput)
    (raw : Option ℚ) (v : ℚ)
    (h1 : inp.perception = some raw)
    (h2 : (verifiedOut cfg.hpConfirmCount (verifyStep s.vs raw) raw).value
      = some v)
    (hs : s.hpSince = none)
    (hlen : inp.seInitJitterS.length = cfg.statusEffectKeys.length) :
    (∀ slot t now m j, seSlotStep slot true t now m j = (true, t, [])) ∧
    (∀ slots la ts now ms js i, la.get? i = some true →
      (seStep slots la ts now ms js).1.get? i = some true) ∧
    (monitorStep cfg s inp =
      afterInit cfg s (verifyStep s.vs raw) v inp inp.now (some v)
        (List.replicate cfg.attackKeys.length
          (inp.now + cfg.engageDelayMs / 1000))
        (List.replicate cfg.statusEffectKeys.length false)
        (seInit cfg.statusEffectKeys inp.now inp.seInitJitterS).1
        (seInit cfg.statusEffectKeys inp.now inp.seInitJitterS).2) ∧
    ((seInit cfg.statusEffectKeys inp.now inp.seInitJitterS).2 =
      cfg.statusEffectKeys.map fun q => Event.press q.key) ∧
    (∀ slots la ts now ms js, (∀ u ∈ ts, now < u) →
      seStep slots la ts now ms js = (la, ts, [])) ∧
    ((∀ j ∈ inp.seInitJitterS, 0 < j) →
      ∀ u ∈ (seInit cfg.statusEffectKeys inp.now inp.seInitJitterS).1,
        inp.now < u) := by
  refine ⟨fun slot t now m j => seSlotStep_applied slot t now m j,
    fun slots la ts now ms js i h =>
      seStep_preserves_applied slots la ts now ms js i h,
    ?_,
    seInit_events_map cfg.statusEffectKeys inp.now inp.seInitJitterS hlen,
    fun slots la ts now ms js h => seStep_skips_future slots la ts now ms js h,
    fun hj => seInit_future cfg.statusEffectKeys inp.now inp.seInitJitterS hj⟩
  rw [monitorStep_visible cfg s inp raw v h1 h2,
    visibleCycle_new cfg s inp (verifyStep s.vs raw) v hs]

/-- Witness for C3: on a fresh session the single status-effect key is
fired immediately. -/
theorem C3_per_target_slots_witness :
    (seInit wCfg.statusEffectKeys wRead50.now wRead50.seInitJitterS).2 =
      [Event.press "s"] :=
  (C3_per_target_slots wCfg (MonState.start wCfg 0) wRead50 (some 50) 50 rfl
    (by decide) rfl rfl).2.2.2.1

lemma monitorRun_break (cfg : Config) (s : MonState) (inp : CycleInput)
    (rest : List (Bool × CycleInput))
    (hbrk : (monitorStep cfg s inp).brk = true) :
    monitorRun cfg s ((true, inp) :: rest) = (monitorStep cfg s inp).events := by
  simp [monitorRun, hbrk]

lemma monitorRun_continue (cfg : Config) (s : MonState) (inp : CycleInput)
    (rest : List (Bool × CycleInput))
    (hbrk : (monitorStep cfg s inp).brk = false) :
    monitorRun cfg s ((true, inp) :: rest) =
      (monitorStep cfg s inp).events ++
        monitorRun cfg (monitorStep cfg s inp).state rest := by
  simp [monitorRun, hbrk]

/-- With no last known-good value, a raw `None` reading verifies to an
absent value whatever the streaks are. -/
lemma verified_none_of_no_lastGood (c : ℕ) (vs : VState)
    (hlg : vs.lastGood = none) :
    (verifiedOut c (verifyStep vs none) none).value = none := by
  simp [verifiedOut, verifyStep, hlg]

/-- Once health is gone and the last known-good value is cleared, no
key other than the targeting key is ever pressed again while the
readings stay `None`. -/
lemma absent_run_no_press (cfg : Config) (l : List CycleInput) :
    ∀ s : MonState, s.prevHpVisible = false → s.vs.lastGood = none →
      (∀ x ∈ l, x.perception = some (none : Option ℚ)) →
      ∀ k, k ≠ cfg.targetKey →
        Event.press k ∉ monitorRun cfg s (l.map fun x => (true, x)) := by
  induction l with
  | nil =>
    intro s _ _ _ k _
    simp [monitorRun]
  | cons x xs ih =>
    intro s hpv hlg hall k hk
    have hx : x.perception = some (none : Option ℚ) :=
      hall x (List.mem_cons_self _ _)
    have hval := verified_none_of_no_lastGood cfg.hpConfirmCount s.vs hlg
    have hstep := monitorStep_absent cfg s x none hx hval
    have hde : deathEvents cfg s.prevHpVisible = [] := by
      rw [hpv]
      exact deathEvents_not_visible cfg
    rcases hnts : s.noTargetSince with _ | t0
    · have hs : monitorStep cfg s x =
          absentContinue cfg s (verifyStep s.vs none) x (some x.now)
            (deathEvents cfg s.prevHpVisible) := by
        rw [hstep, absentCycle_first cfg s x _ hnts]
      have hbrk : (monitorStep cfg s x).brk = false := by rw [hs]; rfl
      rw [List.map_cons, monitorRun_continue cfg s x _ hbrk]
      intro hmem
      rcases List.mem_append.1 hmem with hmem | hmem
      · rw [hs] at hmem
        simp only [absentContinue, hde, List.nil_append] at hmem
        simp [hk] at hmem
      · revert hmem
        rw [hs]
        exact ih _ rfl rfl (fun y hy => hall y (List.mem_cons_of_mem _ hy)) k hk
    · by_cases hc : 0 < cfg.noTargetTimeoutS ∧ cfg.noTargetTimeoutS ≤ x.now - t0
      · have hs : monitorStep cfg s x =
            ⟨{ s with vs := verifyStep s.vs none },
             deathEvents cfg s.prevHpVisible ++ [Event.stopRequest], true⟩ := by
          rw [hstep, absentCycle_timeout cfg s x _ t0 hnts hc]
        have hbrk : (monitorStep cfg s x).brk = true := by rw [hs]
        rw [List.map_cons, monitorRun_break cfg s x _ hbrk, hs]
        simp [hde]
      · have hs : monitorStep cfg s x =
            absentContinue cfg s (verifyStep s.vs none) x (some t0)
              (deathEvents cfg s.prevHpVisible) := by
          rw [hstep, absentCycle_noTimeout cfg s x _ t0 hnts hc]
        have hbrk : (monitorStep cfg s x).brk = false := by rw [hs]; rfl
        rw [List.map_cons, monitorRun_continue cfg s x _ hbrk]
        intro hmem
        rcases List.mem_append.1 hmem with hmem | hmem
        · rw [hs] at hmem
          simp only [absentContinue, hde, List.nil_append] at hmem
          simp [hk] at hmem
        · revert hmem
          rw [hs]
          exact ih _ rfl rfl (fun y hy => hall y (List.mem_cons_of_mem _ hy)) k hk

/-- Claim C5: when the verified health value transitions from present
to absent with an on-death key configured, the death key is pressed
exactly once on the transition cycle, and never again on later absent
cycles until health has been present again. -/
theorem C5_death_key_once (cfg : Config) (s : MonState) (inp : CycleInput)
    (raw : Option ℚ) (dk : String)
    (hdk : cfg.deathKey = some dk) (hne : dk ≠ cfg.targetKey)
    (h1 : inp.perception = some raw)
    (h2 : (verifiedOut cfg.hpConfirmCount (verifyStep s.vs raw) raw).value
      = none) :
    (s.prevHpVisible = true →
      ∃ rest, (monitorStep cfg s inp).events =
        Event.press dk :: Event.sleep (cfg.deathDelayMs / 1000) :: rest ∧
        Event.press dk ∉ rest) ∧
    (s.prevHpVisible = false →
      Event.press dk ∉ (monitorStep cfg s inp).events) ∧
    ((monitorStep cfg s inp).brk = false →
      (monitorStep cfg s inp).state.prevHpVisible = false) ∧
    (∀ l : List CycleInput, s.prevHpVisible = false → s.vs.lastGood = none →
      (∀ x ∈ l, x.perception = some (none : Option ℚ)) →
      ∀ k, k ≠ cfg.targetKey →
        Event.press k ∉ monitorRun cfg s (l.map fun x => (true, x))) := by
  rw [monitorStep_absent cfg s inp raw h1 h2]
  rcases hnts : s.noTargetSince with _ | t0
  · rw [absentCycle_first cfg s inp _ hnts]
    refine ⟨?_, ?_, fun _ => rfl, fun l => absent_run_no_press cfg l s⟩
    · intro hpv
      have hde : deathEvents cfg s.prevHpVisible =
          [Event.press dk, Event.sleep (cfg.deathDelayMs / 1000)] := by
        rw [hpv]
        simp [deathEvents, hdk]
      refine ⟨[Event.press cfg.targetKey, Event.sleep inp.tgtDelayS],
        by simp [absentContinue, hde], ?_⟩
      intro hmem
      simp [hne] at hmem
    · intro hpv
      have hde : deathEvents cfg s.prevHpVisible = [] := by
        rw [hpv]
        exact deathEvents_not_visible cfg
      intro hmem
      simp only [absentContinue, hde, List.nil_append] at hmem
      simp [hne] at hmem
  · by_cases hc : 0 < cfg.noTargetTimeoutS ∧ cfg.noTargetTimeoutS ≤ inp.now - t0
    · rw [absentCycle_timeout cfg s inp _ t0 hnts hc]
      refine ⟨?_, ?_, ?_, fun l => absent_run_no_press cfg l s⟩
      · intro hpv
        have hde : deathEvents cfg s.prevHpVisible =
            [Event.press dk, Event.sleep (cfg.deathDelayMs / 1000)] := by
          rw [hpv]
          simp [deathEvents, hdk]
        exact ⟨[Event.stopRequest], by simp [hde], by simp⟩
      · intro hpv
        have hde : deathEvents cfg s.prevHpVisible = [] := by
          rw [hpv]
          exact deathEvents_not_visible cfg
        intro hmem
        simp [hde] at hmem
      · intro hbrk
        exact absurd hbrk (by simp)
    · rw [absentCycle_noTimeout cfg s inp _ t0 hnts hc]
      refine ⟨?_, ?_, fun _ => rfl, fun l => absent_run_no_press cfg l s⟩
      · intro hpv
        have hde : deathEvents cfg s.prevHpVisible =
            [Event.press dk, Event.sleep (cfg.deathDelayMs / 1000)] := by
          rw [hpv]
          simp [deathEvents, hdk]
        refine ⟨[Event.press cfg.targetKey, Event.sleep inp.tgtDelayS],
          by simp [absentContinue, hde], ?_⟩
        intro hmem
        simp [hne] at hmem
      · intro hpv
        have hde : deathEvents cfg s.prevHpVisible = [] := by
          rw [hpv]
          exact deathEvents_not_visible cfg
        intro hmem
        simp only [absentContinue, hde, List.nil_append] at hmem
        simp [hne] at hmem

/-- Witness for C5: on a concrete present→absent transition the events
start with one death-key press followed by its delay. -/
theorem C5_death_key_once_witness :
    ∃ rest, (monitorStep wCfg wDying wReadGone).events =
      Event.press "d" :: Event.sleep (wCfg.deathDelayMs / 1000) :: rest ∧
      Event.press "d" ∉ rest :=
  (C5_death_key_once wCfg wDying wReadGone none "d" rfl (by decide) rfl
    (by decide)).1 rfl

/-- Claim C6: with a configured no-target timeout `T > 0`, an absent
cycle at least `T` seconds after the first absent cycle issues exactly
one stop request and the loop exits; with `T = 0` the loop never stops
for this reason and keeps pressing the targeting key. -/
theorem C6_no_target_timeout (cfg : Config) (s : MonState) (inp : CycleInput)
    (raw : Option ℚ)
    (h1 : inp.perception = some raw)
    (h2 : (verifiedOut cfg.hpConfirmCount (verifyStep s.vs raw) raw).value
      = none) :
    (s.noTargetSince = none →
      (monitorStep cfg s inp).state.noTargetSince = some inp.now ∧
      (monitorStep cfg s inp).brk = false ∧
      Event.stopRequest ∉ (monitorStep cfg s inp).events ∧
      Event.press cfg.targetKey ∈ (monitorStep cfg s inp).events) ∧
    (∀ t0, s.noTargetSince = some t0 → 0 < cfg.noTargetTimeoutS →
      cfg.noTargetTimeoutS ≤ inp.now - t0 →
      (monitorStep cfg s inp).brk = true ∧
      (monitorStep cfg s inp).events =
        deathEvents cfg s.prevHpVisible ++ [Event.stopRequest] ∧
      Event.stopRequest ∉ deathEvents cfg s.prevHpVisible ∧
      ∀ rest, monitorRun cfg s ((true, inp) :: rest) =
        (monitorStep cfg s inp).events) ∧
    (cfg.noTargetTimeoutS = 0 →
      (monitorStep cfg s inp).brk = false ∧
      Event.stopRequest ∉ (monitorStep cfg s inp).events ∧
      Event.press cfg.targetKey ∈ (monitorStep cfg s inp).events) := by
  have hstep := monitorStep_absent cfg s inp raw h1 h2
  have hdsr : Event.stopRequest ∉ deathEvents cfg s.prevHpVisible := by
    rcases deathEvents_shape cfg s.prevHpVisible with hd | ⟨dk, _, _, hd⟩ <;>
      rw [hd] <;> simp
  refine ⟨?_, ?_, ?_⟩
  · intro hnts
    rw [hstep, absentCycle_first cfg s inp _ hnts]
    refine ⟨rfl, rfl, ?_, by simp [absentContinue]⟩
    intro hmem
    simp only [absentContinue, List.mem_append] at hmem
    rcases hmem with hmem | hmem
    · exact hdsr hmem
    · simp at hmem
  · intro t0 hnts hpos hex
    have hbr := absentCycle_timeout cfg s inp (verifyStep s.vs raw) t0 hnts
      ⟨hpos, hex⟩
    rw [hstep, hbr]
    refine ⟨rfl, rfl, hdsr, ?_⟩
    intro rest
    have hbrk : (monitorStep cfg s inp).brk = true := by rw [hstep, hbr]
    rw [monitorRun_break cfg s inp rest hbrk, hstep, hbr]
  · intro h0
    rcases hnts : s.noTargetSince with _ | t0
    · rw [hstep, absentCycle_first cfg s inp _ hnts]
      refine ⟨rfl, ?_, by simp [absentContinue]⟩
      intro hmem
      simp only [absentContinue, List.mem_append] at hmem
      rcases hmem with hmem | hmem
      · exact hdsr hmem
      · simp at hmem
    · have hc : ¬ (0 < cfg.noTargetTimeoutS ∧
          cfg.noTargetTimeoutS ≤ inp.now - t0) := by
        rw [h0]
        intro hcc
        exact lt_irrefl 0 hcc.1
      rw [hstep, absentCycle_noTimeout cfg s inp _ t0 hnts hc]
      refine ⟨rfl, ?_, by simp [absentContinue]⟩
      intro hmem
      simp only [absentContinue, List.mem_append] at hmem
      rcases hmem with hmem | hmem
      · exact hdsr hmem
      · simp at hmem

/-- Witness for C6: at 130 s with the first absent cycle at 0 s and a
120 s timeout, the cycle breaks out of the loop. -/
theorem C6_no_target_timeout_witness :
    (monitorStep wCfg wIdle wReadGoneLate).brk = true ∧
    (monitorStep wCfg wIdle wReadGoneLate).events =
      deathEvents wCfg wIdle.prevHpVisible ++ [Event.stopRequest] :=
  have h := (C6_no_target_timeout wCfg wIdle wReadGoneLate none rfl
    (by decide)).2.1 0 rfl (by decide) (by norm_num [wCfg, wReadGoneLate])
  ⟨h.1, h.2.1⟩

/-- Counterexample to C8: a cycle whose verified value (50) is present
and equal to the previous observed value nevertheless changes
`hp_since`: the stuck branch clears it to `None` when ending the
session, so the stuck clock is not left unchanged on every such cycle. -/
theorem C8_counterexample :
    (verifiedOut wCfg.hpConfirmCount (verifyStep wSession.vs (some 50))
      (some 50)).value = some 50 ∧
    wSession.prevHpPct = some 50 ∧ ¬ (50 : ℚ) < 50 ∧
    wSession.hpSince = some 0 ∧
    (monitorStep wCfg wSession wRead50).state.hpSince ≠ wSession.hpSince := by
  refine ⟨by decide, rfl, by decide, rfl, ?_⟩
  have hstuck2 : wCfg.stuckS ≤ wRead50.now -
      hpSince2 wSession.prevHpPct 50 wRead50.now 0 := by
    rw [show wSession.prevHpPct = some 50 from rfl,
      hpSince2_no_decrease 50 50 wRead50.now 0 (by decide)]
    norm_num [wCfg, wRead50]
  rw [monitorStep_visible wCfg wSession wRead50 (some 50) 50 rfl (by decide),
    visibleCycle_session wCfg wSession wRead50 _ 50 0 rfl,
    afterInit_stuck wCfg wSession wRead50 _ 50 0 wSession.prevHpPct
      wSession.nextPress wSession.seApplied wSession.nextSeCheck [] hstuck2]
  simp [wSession]

/-- Amended C8: in a visible cycle with a previous observed value, the
stuck clock `hp_since` is set to the current time only when the present
value is strictly below the previous one; when the value has not
decreased it is left unchanged unless the cycle triggers stuck
handling, which clears it to `None` as part of ending the session. -/
theorem C8_stuck_clock (cfg : Config) (s : MonState) (inp : CycleInput)
    (raw : Option ℚ) (v p t : ℚ)
    (h1 : inp.perception = some raw)
    (h2 : (verifiedOut cfg.hpConfirmCount (verifyStep s.vs raw) raw).value
      = some v)
    (ht : s.hpSince = some t) (hp : s.prevHpPct = some p) :
    (p ≤ v →
      (monitorStep cfg s inp).state.hpSince =
        (if cfg.stuckS ≤ inp.now - t then none else some t)) ∧
    (∀ u, (monitorStep cfg s inp).state.hpSince = some u →
      u = t ∨ (v < p ∧ u = inp.now)) := by
  rw [monitorStep_visible cfg s inp raw v h1 h2,
    visibleCycle_session cfg s inp (verifyStep s.vs raw) v t ht]
  have hs2 : hpSince2 s.prevHpPct v inp.now t
      = if v < p then inp.now else t := by
    rw [hp]
    rfl
  constructor
  · intro hpv
    have hnd : ¬ v < p := not_lt.2 hpv
    have hs2n : hpSince2 s.prevHpPct v inp.now t = t := by
      rw [hs2, if_neg hnd]
    by_cases hst : cfg.stuckS ≤ inp.now - hpSince2 s.prevHpPct v inp.now t
    · rw [afterInit_stuck cfg s inp _ v t s.prevHpPct s.nextPress s.seApplied
        s.nextSeCheck [] hst]
      rw [hs2n] at hst
      rw [if_pos hst]
    · rw [afterInit_attack cfg s inp _ v t s.prevHpPct s.nextPress s.seApplied
        s.nextSeCheck [] hst]
      rw [hs2n] at hst
      simp only [hs2n]
      rw [if_neg hst]
  · intro u hu
    by_cases hst : cfg.stuckS ≤ inp.now - hpSince2 s.prevHpPct v inp.now t
    · rw [afterInit_stuck cfg s inp _ v t s.prevHpPct s.nextPress s.seApplied
        s.nextSeCheck [] hst] at hu
      simp at hu
    · rw [afterInit_attack cfg s inp _ v t s.prevHpPct s.nextPress s.seApplied
        s.nextSeCheck [] hst] at hu
      by_cases hd : v < p
      · have hs2d : hpSince2 s.prevHpPct v inp.now t = inp.now := by
          rw [hs2, if_pos hd]
        rw [hs2d] at hu
        simp at hu
        exact Or.inr ⟨hd, hu.symm⟩
      · have hs2n : hpSince2 s.prevHpPct v inp.now t = t := by
          rw [hs2, if_neg hd]
        rw [hs2n] at hu
        simp at hu
        exact Or.inl hu.symm

/-- Witness for the amended C8: at a concrete non-decreasing stuck
cycle the clock is cleared. -/
theorem C8_stuck_clock_witness :
    (monitorStep wCfg wSession wRead50).state.hpSince = none := by
  have h := (C8_stuck_clock wCfg wSession wRead50 (some 50) 50 50 0 rfl
    (by decide) rfl rfl).1 (le_refl 50)
  rw [if_pos (by norm_num [wCfg, wRead50])] at h
  exact h

/-- Claim C9: periodic buff slots are never reset by a session change
and carry no applied flag: while engaged, whenever the single shared
buff timer has elapsed every buff is checked and its key pressed
exactly when its template match failed, and the timer is rescheduled to
`now + interval` after the check group; otherwise buffs contribute
nothing, and neither absent cycles nor session initialisation touch the
timer. -/
theorem C9_periodic_buffs (cfg : Config) (s : MonState) (inp : CycleInput)
    (raw : Option ℚ) (v p t : ℚ)
    (h1 : inp.perception = some raw)
    (h2 : (verifiedOut cfg.hpConfirmCount (verifyStep s.vs raw) raw).value
      = some v)
    (ht : s.hpSince = some t) (hp : s.prevHpPct = some p) (hnd : ¬ v < p)
    (hns : ¬ cfg.stuckS ≤ inp.now - t) :
    (∀ nbc, s.nextBuffCheck = some nbc → cfg.buffKeys ≠ [] → nbc ≤ inp.now →
      (monitorStep cfg s inp).state.nextBuffCheck =
        some (inp.now + cfg.buffIntervalS) ∧
      (monitorStep cfg s inp).events =
        (attackStep cfg.attackKeys s.nextPress inp.now inp.attackJitterS).2 ++
        (seStep cfg.statusEffectKeys s.seApplied s.nextSeCheck inp.now
          inp.seMatch inp.seJitterS).2.2 ++
        buffStep cfg.buffKeys inp.buffMatch ++ [Event.sleep pollIntervalS]) ∧
    (∀ nbc, s.nextBuffCheck = some nbc → inp.now < nbc →
      (monitorStep cfg s inp).state.nextBuffCheck = some nbc ∧
      (monitorStep cfg s inp).events =
        (attackStep cfg.attackKeys s.nextPress inp.now inp.attackJitterS).2 ++
        (seStep cfg.statusEffectKeys s.seApplied s.nextSeCheck inp.now
          inp.seMatch inp.seJitterS).2.2 ++ [Event.sleep pollIntervalS]) ∧
    (∀ slots ms e, e ∈ buffStep slots ms ↔
      ∃ i b, slots.get? i = some b ∧ ms.get? i = some (some false) ∧
        e = Event.press b.key) ∧
    (∀ s2 inp2 raw2, inp2.perception = some raw2 →
      (verifiedOut cfg.hpConfirmCount (verifyStep s2.vs raw2) raw2).value
        = none →
      (monitorStep cfg s2 inp2).state.nextBuffCheck = s2.nextBuffCheck) ∧
    (∀ s2 inp2 raw2 v2, inp2.perception = some raw2 →
      (verifiedOut cfg.hpConfirmCount (verifyStep s2.vs raw2) raw2).value
        = some v2 →
      s2.hpSince = none → 0 < cfg.stuckS →
      (∀ nbc2, s2.nextBuffCheck = some nbc2 → inp2.now < nbc2) →
      (monitorStep cfg s2 inp2).state.nextBuffCheck = s2.nextBuffCheck) := by
  have hns2 : ¬ cfg.stuckS ≤ inp.now - hpSince2 s.prevHpPct v inp.now t := by
    rw [hp, hpSince2_no_decrease p v inp.now t hnd]
    exact hns
  have hstep : monitorStep cfg s inp =
      afterInit cfg s (verifyStep s.vs raw) v inp t s.prevHpPct s.nextPress
        s.seApplied s.nextSeCheck [] := by
    rw [monitorStep_visible cfg s inp raw v h1 h2,
      visibleCycle_session cfg s inp (verifyStep s.vs raw) v t ht]
  refine ⟨?_, ?_, fun slots ms e => buffStep_mem_iff slots ms e, ?_, ?_⟩
  · intro nbc hnbc hne hdue
    rw [hstep, afterInit_attack cfg s inp _ v t s.prevHpPct s.nextPress
      s.seApplied s.nextSeCheck [] hns2, hnbc,
      buffCheck_due cfg nbc inp.now inp.buffMatch hne hdue]
    simp
  · intro nbc hnbc hlt
    have hnd2 : ¬ (cfg.buffKeys ≠ [] ∧ nbc ≤ inp.now) := fun hcc =>
      absurd hcc.2 (not_le.2 hlt)
    rw [hstep, afterInit_attack cfg s inp _ v t s.prevHpPct s.nextPress
      s.seApplied s.nextSeCheck [] hns2, hnbc,
      buffCheck_notDue cfg nbc inp.now inp.buffMatch hnd2]
    simp
  · intro s2 inp2 raw2 hperc hval
    rw [monitorStep_absent cfg s2 inp2 raw2 hperc hval]
    rcases hnts : s2.noTargetSince with _ | t0
    · rw [absentCycle_first cfg s2 inp2 _ hnts]
      rfl
    · by_cases hc : 0 < cfg.noTargetTimeoutS ∧
          cfg.noTargetTimeoutS ≤ inp2.now - t0
      · rw [absentCycle_timeout cfg s2 inp2 _ t0 hnts hc]
      · rw [absentCycle_noTimeout cfg s2 inp2 _ t0 hnts hc]
        rfl
  · intro s2 inp2 raw2 v2 hperc hval hs0 hpos hfut
    have hps : hpSince2 (some v2) v2 inp2.now inp2.now = inp2.now := by
      simp only [hpSince2]
      rw [if_neg (lt_irrefl v2)]
    have hstk : ¬ cfg.stuckS ≤ inp2.now -
        hpSince2 (some v2) v2 inp2.now inp2.now := by
      rw [hps]
      simp only [sub_self]
      exact not_le.2 hpos
    rw [monitorStep_visible cfg s2 inp2 raw2 v2 hperc hval,
      visibleCycle_new cfg s2 inp2 _ v2 hs0,
      afterInit_attack cfg s2 inp2 _ v2 inp2.now (some v2) _ _ _ _ hstk]
    rcases hnbc : s2.nextBuffCheck with _ | nbc2
    · rfl
    · rw [buffCheck_notDue cfg nbc2 inp2.now inp2.buffMatch
        (fun hcc => absurd hcc.2 (not_le.2 (hfut nbc2 hnbc)))]

/-- Witness for C9: with the shared buff timer still in the future the
cycle leaves it untouched. -/
theorem C9_periodic_buffs_witness :
    (monitorStep wCfg wSession wRead5).state.nextBuffCheck = some 100 :=
  ((C9_periodic_buffs wCfg wSession wRead5 (some 50) 50 50 0 rfl (by decide)
    rfl rfl (by decide) (by norm_num [wCfg, wRead5])).2.1 100 rfl
    (by norm_num [wRead5])).1

/-- Claim C10: presence of a target is decided solely by the verified
value being non-None: a verified value of exactly 0 (a confirmed zero
reading, or an unconfirmed zero with no last known-good value) still
takes the engaged branch, and only a verified `None` takes the absent
branch with its death-key / re-targeting / teardown handling. -/
theorem C10_zero_is_present (cfg : Config) (s : MonState) (inp : CycleInput)
    (raw : Option ℚ) :
    (∀ c vs0, zeroConfirmed c (verifyStep vs0 (some 0)) = true →
      (verifiedOut c (verifyStep vs0 (some 0)) (some 0)).value = some 0) ∧
    (∀ c vs0, vs0.lastGood = none →
      (verifiedOut c (verifyStep vs0 (some 0)) (some 0)).value = some 0) ∧
    (∀ v, inp.perception = some raw →
      (verifiedOut cfg.hpConfirmCount (verifyStep s.vs raw) raw).value
        = some v →
      (monitorStep cfg s inp).state.noTargetSince = none ∧
      (monitorStep cfg s inp).state.prevHpVisible = true ∧
      (monitorStep cfg s inp).brk = false) ∧
    (inp.perception = some raw →
      (verifiedOut cfg.hpConfirmCount (verifyStep s.vs raw) raw).value
        = none →
      (monitorStep cfg s inp).brk = true ∨
      ((monitorStep cfg s inp).state.prevHpVisible = false ∧
       (monitorStep cfg s inp).state.vs.lastGood = none ∧
       (monitorStep cfg s inp).state.hpSince = none)) := by
  refine ⟨?_, ?_, ?_, ?_⟩
  · intro c vs0 hconf
    simp [verifiedOut, hconf]
  · intro c vs0 hlg
    simp [verifiedOut, verifyStep, hlg]
  · intro v hperc hval
    rw [monitorStep_visible cfg s inp raw v hperc hval]
    exact visibleCycle_props cfg s _ v inp
  · intro hperc hval
    rw [monitorStep_absent cfg s inp raw hperc hval]
    rcases hnts : s.noTargetSince with _ | t0
    · right
      rw [absentCycle_first cfg s inp _ hnts]
      exact ⟨rfl, rfl, rfl⟩
    · by_cases hc : 0 < cfg.noTargetTimeoutS ∧
          cfg.noTargetTimeoutS ≤ inp.now - t0
      · left
        rw [absentCycle_timeout cfg s inp _ t0 hnts hc]
      · right
        rw [absentCycle_noTimeout cfg s inp _ t0 hnts hc]
        exact ⟨rfl, rfl, rfl⟩

/-- Counterexample to C7: closing the window while only the monitor is
running (`monitoring = true`, `running = false`, serial port open)
sends no STOP command to the device at all. -/
theorem C7_counterexample :
    (AppState.mk true false true).monitoring = true ∧
    (onClose (AppState.mk true false true)).2 = [] := by
  constructor
  · rfl
  · rfl

/-- Amended C7: the monitoring flag is polled at the top of every loop
iteration (a cleared flag produces no further cycle); the stop button
(`_stop_monitoring`, also scheduled by the no-target timeout) sends a
final STOP whenever the port is open; closing the window clears the
flag and closes the port, but sends STOP only when the simple
autoclicker is also running. -/
theorem C7_stop_paths (st : AppState) :
    (∀ cfg s inp rest, monitorRun cfg s ((false, inp) :: rest) = []) ∧
    ((stopMonitoring st).2 = if st.serialOpen then [Cmd.stop] else []) ∧
    (stopMonitoring st).1.monitoring = false ∧
    ((onClose st).2 = if st.running ∧ st.serialOpen then [Cmd.stop] else []) ∧
    (onClose st).1.monitoring = false ∧
    (onClose st).1.serialOpen = false := by
  obtain ⟨m, r, o⟩ := st
  refine ⟨fun cfg s inp rest => by simp [monitorRun], rfl, rfl, ?_, ?_, ?_⟩
  · cases r <;> cases o <;> simp [onClose, onStop, serialSend]
  · cases r <;> simp [onClose, onStop, serialSend]
  · cases r <;> simp [onClose, onStop, serialSend]

end AutoBot
